import Mathlib

/-!
Shallow embedding of `src/card_game.py`: a two-player, 24-card
trick-taking ("Sixty-Six"-family) round-and-match engine.

Modelling conventions:
* Python lists become `List`; `list.pop()` (pop from the end) becomes `popLast`;
  `list.remove(x)` (remove first occurrence) becomes `List.erase`;
  `list.append(x)` becomes `++ [x]`.
* The mutable `Round` object becomes a structure; every mutating method
  becomes a function `Round → ... → Round` (returning the updated state).
* Fallible operations (indexing a hand out of range) return `Option`.
* Display-only / RL-bookkeeping fields of the Python class (`ui`,
  `player_last_drawn`, `computer_last_drawn`, `last_trick_info`,
  `match_scores`, `computer_seen_cards`) are omitted: no claim mentions them
  and they never influence the game-state transitions modelled here.
* The structure carries one ghost field `played`: the number of cards
  removed from hands by `PLAY_CARD` actions.  The Python code drops trick
  cards on the floor; the ghost counter is the "cards already played and
  discarded" tally that the conservation invariant speaks about.
* Players are the strings "player" / "computer" exactly as in the source;
  `closed_by` stores "you" / "computer" exactly as `execute_action` writes it.
-/

namespace CardGame

inductive Suit where
  | hearts
  | diamonds
  | clubs
  | spades
deriving DecidableEq, Repr, Fintype

/-- Ranks in the order of the Python `RANKS` list: 9, J, Q, K, 10, A. -/
inductive Rank where
  | nine
  | jack
  | queen
  | king
  | ten
  | ace
deriving DecidableEq, Repr, Fintype

/-- `RANKS` — the fixed rank ordering 9 < J < Q < K < 10 < A. -/
def RANKS : List Rank := [.nine, .jack, .queen, .king, .ten, .ace]

/-- Iteration order of the Python `Suit` enum. -/
def SUITS : List Suit := [.hearts, .diamonds, .clubs, .spades]

/-- `RANK_VALUES` — card point values. -/
def rank_value : Rank → Nat
  | .nine => 0
  | .ten => 10
  | .jack => 2
  | .queen => 3
  | .king => 4
  | .ace => 11

structure Card where
  rank : Rank
  suit : Suit
deriving DecidableEq, Repr, Fintype

/-- `Card.value`. -/
def Card.value (c : Card) : Nat := rank_value c.rank

inductive ActionType where
  | play_card
  | swap_trump
  | close_game
  | pass
deriving DecidableEq, Repr, Fintype

/-- `Action` — dataclass with optional fields; equality is field-wise, as for
the Python dataclass. -/
structure Action where
  type : ActionType
  card_index : Option Nat := none
  marriage_suit : Option Suit := none
deriving DecidableEq, Repr

/-- `create_deck()` — 24 cards, suits in enum order, ranks in `RANKS` order. -/
def create_deck : List Card :=
  SUITS.flatMap (fun suit => RANKS.map (fun rank => ⟨rank, suit⟩))

/-- `RANKS.index(card.rank)` — position of a rank in the fixed ordering. -/
def rank_index (r : Rank) : Nat := RANKS.indexOf r

/-- `card_strength(card, lead_suit, trump_suit)`. -/
def card_strength (card : Card) (lead_suit trump_suit : Suit) : Nat :=
  let base := rank_index card.rank
  if card.suit = trump_suit then 100 + base
  else if card.suit = lead_suit then 50 + base
  else base

/-- Python `list.pop()` (no argument): remove and return the LAST element. -/
def popLast {α : Type} (l : List α) : Option (α × List α) :=
  match l.getLast? with
  | some c => some (c, l.dropLast)
  | none => none

/-- Per-round mutable state of the Python `Round` class (game-relevant
fields; see the module docstring for the omitted display fields and the
ghost field `played`). -/
structure Round where
  player_hand : List Card
  computer_hand : List Card
  trump_card : Option Card
  trump_suit : Suit
  draw_pile : List Card
  player_score : Nat
  computer_score : Nat
  player_leads : Bool
  closed : Bool
  closed_by : Option String
  round_winner : Option String
  win_score : Nat
  played : Nat
deriving DecidableEq, Repr

/-- The dealing loop of `Round.__init__`: `n` times, player then computer
each pop a card off the end of the deck. -/
def deal : Nat → List Card → List Card → List Card →
    Option (List Card × List Card × List Card)
  | 0, ph, ch, deck => some (ph, ch, deck)
  | n + 1, ph, ch, deck =>
    match popLast deck with
    | none => none
    | some (c1, deck1) =>
      match popLast deck1 with
      | none => none
      | some (c2, deck2) => deal n (ph ++ [c1]) (ch ++ [c2]) deck2

/-- `Round.__init__` given the already-shuffled deck and who starts
(the shuffle and the random choice of starter are the caller's randomness):
deal 6 cards each, reveal the trump card, the rest is the draw pile. -/
def Round.init (deck : List Card) (player_starts : Bool) : Option Round := do
  let (ph, ch, deck1) ← deal 6 [] [] deck
  let (tc, pile) ← popLast deck1
  return { player_hand := ph
           computer_hand := ch
           trump_card := some tc
           trump_suit := tc.suit
           draw_pile := pile
           player_score := 0
           computer_score := 0
           player_leads := player_starts
           closed := false
           closed_by := none
           round_winner := none
           win_score := 66
           played := 0 }

/-- `Round.phase` — 1 while cards can still be drawn, 2 once closed or
both the pile and the trump card are gone. -/
def Round.phase (r : Round) : Nat :=
  if r.closed then 2
  else if r.draw_pile = [] ∧ r.trump_card = none then 2
  else 1

/-- The hand of the named player ("player" selects the player's hand,
anything else the computer's, as the Python ternary does). -/
def Round.hand_of (r : Round) (player : String) : List Card :=
  if player = "player" then r.player_hand else r.computer_hand

/-- `Round.get_valid_cards`. -/
def Round.get_valid_cards (r : Round) (hand : List Card)
    (lead_card : Option Card) : List Card :=
  match lead_card with
  | none => hand
  | some lc =>
    if r.phase = 1 then hand
    else
      let same_suit := hand.filter (fun c => c.suit == lc.suit)
      if same_suit ≠ [] then same_suit
      else
        let trumps := hand.filter (fun c => c.suit == r.trump_suit)
        if trumps ≠ [] then trumps
        else hand

/-- `Round.has_nine_trump` — the first card in the hand that is the 9 of the
trump suit, if any. -/
def Round.has_nine_trump (r : Round) (hand : List Card) : Option Card :=
  hand.find? (fun c => c.rank == Rank.nine && c.suit == r.trump_suit)

/-- `Round.get_marriages` — suits for which the hand holds both King and
Queen, in `Suit` enum order. -/
def get_marriages (hand : List Card) : List Suit :=
  SUITS.filter (fun suit =>
    hand.any (fun c => c.rank == Rank.king && c.suit == suit) &&
    hand.any (fun c => c.rank == Rank.queen && c.suit == suit))

/-- `Round.marriage_value` — 40 for the trump suit, 20 otherwise. -/
def Round.marriage_value (r : Round) (suit : Suit) : Nat :=
  if suit = r.trump_suit then 40 else 20

/-- The `for i, card in enumerate(hand)` loop body of
`Round.get_valid_actions`: for each card that is in the valid-card list,
one marriage-announcing play per announced suit, then the plain play. -/
def playActions (valid_cards : List Card) (marriages : List Suit) :
    Nat → List Card → List Action
  | _, [] => []
  | i, card :: rest =>
    (if valid_cards.contains card then
      (marriages.filter (fun suit =>
          card.suit == suit && (card.rank == Rank.king || card.rank == Rank.queen))).map
        (fun suit => { type := .play_card, card_index := some i, marriage_suit := some suit })
      ++ [{ type := .play_card, card_index := some i }]
    else []) ++ playActions valid_cards marriages (i + 1) rest

/-- `Round.get_valid_actions`. -/
def Round.get_valid_actions (r : Round) (player : String)
    (lead_card : Option Card) (is_winner_action : Bool) : List Action :=
  let hand := r.hand_of player
  if is_winner_action then
    (if (r.has_nine_trump hand).isSome ∧ r.trump_card.isSome then
      [{ type := .swap_trump }] else [])
    ++ [{ type := .close_game }, { type := .pass }]
  else
    let valid_cards := r.get_valid_cards hand lead_card
    let marriages := if lead_card = none then get_marriages hand else []
    playActions valid_cards marriages 0 hand

/-- `Round.swap_nine_trump` — exchange the 9 of trump in the given player's
hand for the visible trump card (the Python method receives the hand list
by reference; here the player name selects which hand field to update).
Returns the updated round and the Python method's Bool result. -/
def Round.swap_nine_trump (r : Round) (player : String) : Round × Bool :=
  let hand := r.hand_of player
  match r.has_nine_trump hand, r.trump_card with
  | some nine, some tc =>
    let hand1 := hand.erase nine ++ [tc]
    (if player = "player" then
      { r with player_hand := hand1, trump_card := some nine }
    else
      { r with computer_hand := hand1, trump_card := some nine }, true)
  | _, _ => (r, false)

/-- `Round.execute_action` — performs the action and returns the updated
round with `(card_played, marriage_points)`.  A `PLAY_CARD` whose index is
missing or out of range raises in Python; that is the `none` result.
Note the method performs whatever action it is handed: it never consults
`get_valid_actions`. -/
def Round.execute_action (r : Round) (player : String) (action : Action)
    (lead_card : Option Card) : Option (Round × Option Card × Nat) :=
  let hand := r.hand_of player
  match action.type with
  | .swap_trump => some ((r.swap_nine_trump player).1, none, 0)
  | .close_game =>
    some ({ r with
            closed := true
            closed_by := some (if player = "player" then "you" else "computer") },
          none, 0)
  | .pass => some (r, none, 0)
  | .play_card =>
    match action.card_index with
    | none => none
    | some i =>
      match hand[i]? with
      | none => none
      | some card =>
        let r1 :=
          if player = "player" then
            { r with player_hand := r.player_hand.erase card, played := r.played + 1 }
          else
            { r with computer_hand := r.computer_hand.erase card, played := r.played + 1 }
        let marriage_points :=
          match action.marriage_suit with
          | some suit => r.marriage_value suit
          | none => 0
        some (r1, some card, marriage_points)

/-- First half of `Round.play_trick`: leader plays (their marriage points,
if any, are added to their score immediately), then the follower plays
seeing the lead card; the follower's marriage points are discarded exactly
as the `_` in `computer_card, _ = self.computer_play(player_card)` does.
Returns the state after both plays together with
`(player_card, computer_card, player_marriage, computer_marriage)`. -/
def Round.trick_after_plays (r : Round) (leader_action follower_action : Action) :
    Option (Round × Card × Card × Nat × Nat) :=
  if r.player_leads then
    match r.execute_action "player" leader_action none with
    | some (r1, some player_card, pm) =>
      let r2 := if pm ≠ 0 then { r1 with player_score := r1.player_score + pm } else r1
      match r2.execute_action "computer" follower_action (some player_card) with
      | some (r3, some computer_card, _) => some (r3, player_card, computer_card, pm, 0)
      | _ => none
    | _ => none
  else
    match r.execute_action "computer" leader_action none with
    | some (r1, some computer_card, cm) =>
      let r2 := if cm ≠ 0 then { r1 with computer_score := r1.computer_score + cm } else r1
      match r2.execute_action "player" follower_action (some computer_card) with
      | some (r3, some player_card, _) => some (r3, player_card, computer_card, 0, cm)
      | _ => none
    | _ => none

/-- The marriage 66-check of `Round.play_trick`, run after both plays and
before trick resolution: a marriage announcer whose score already reaches
`win_score` becomes the round winner before any trick points are added. -/
def Round.trick_marriage_check (r : Round) (player_marriage computer_marriage : Nat) :
    Round :=
  let r1 := if player_marriage ≠ 0 ∧ r.player_score ≥ r.win_score then
    { r with round_winner := some "player" } else r
  if computer_marriage ≠ 0 ∧ r1.computer_score ≥ r1.win_score then
    { r1 with round_winner := some "computer" } else r1

/-- Trick resolution of `Round.play_trick`: compare strengths, award both
cards' points to the winner, hand them the lead, then run the 66-check on
the updated scores.  Returns the state and `winner_is_player`. -/
def Round.trick_resolve (r : Round) (player_card computer_card : Card)
    (lead_suit : Suit) : Round × Bool :=
  let player_strength := card_strength player_card lead_suit r.trump_suit
  let computer_strength := card_strength computer_card lead_suit r.trump_suit
  let trick_points := player_card.value + computer_card.value
  let step :=
    if player_strength > computer_strength then
      ({ r with player_score := r.player_score + trick_points, player_leads := true }, true)
    else
      ({ r with computer_score := r.computer_score + trick_points, player_leads := false }, false)
  let r1 := step.1
  let r2 :=
    if r1.player_score ≥ r1.win_score then { r1 with round_winner := some "player" }
    else if r1.computer_score ≥ r1.win_score then { r1 with round_winner := some "computer" }
    else r1
  (r2, step.2)

/-- `Round.play_trick`, with the two actors' chosen actions supplied as
arguments (in the source they come from the UI and the computer policy). -/
def Round.play_trick (r : Round) (leader_action follower_action : Action) :
    Option (Round × Bool) :=
  match r.trick_after_plays leader_action follower_action with
  | none => none
  | some (r1, player_card, computer_card, pm, cm) =>
    let lead_suit := if r.player_leads then player_card.suit else computer_card.suit
    let r2 := r1.trick_marriage_check pm cm
    some (r2.trick_resolve player_card computer_card lead_suit)

/-- `Round.draw_cards` — the trick leader draws first; when the pile runs
out the visible trump card is drawn instead; no drawing once closed. -/
def Round.draw_cards (r : Round) : Round :=
  if r.closed then r
  else
    match popLast r.draw_pile with
    | some (c1, rest1) =>
      if r.player_leads then
        let r1 := { r with player_hand := r.player_hand ++ [c1], draw_pile := rest1 }
        match popLast rest1 with
        | some (c2, rest2) =>
          { r1 with computer_hand := r1.computer_hand ++ [c2], draw_pile := rest2 }
        | none =>
          match r1.trump_card with
          | some tc => { r1 with computer_hand := r1.computer_hand ++ [tc], trump_card := none }
          | none => r1
      else
        let r1 := { r with computer_hand := r.computer_hand ++ [c1], draw_pile := rest1 }
        match popLast rest1 with
        | some (c2, rest2) =>
          { r1 with player_hand := r1.player_hand ++ [c2], draw_pile := rest2 }
        | none =>
          match r1.trump_card with
          | some tc => { r1 with player_hand := r1.player_hand ++ [tc], trump_card := none }
          | none => r1
    | none =>
      match r.trump_card with
      | some tc =>
        if r.player_leads then
          { r with player_hand := r.player_hand ++ [tc], trump_card := none }
        else
          { r with computer_hand := r.computer_hand ++ [tc], trump_card := none }
      | none => r

/-- `Round.calculate_game_points`. -/
def Round.calculate_game_points (r : Round) : Option String × Nat :=
  if r.closed then
    if r.closed_by = some "you" then
      if r.round_winner = some "player" then (some "player", 3) else (some "computer", 3)
    else
      if r.round_winner = some "computer" then (some "computer", 3) else (some "player", 3)
  else
    if r.round_winner = some "player" then
      if r.computer_score < 33 then (some "player", 2) else (some "player", 1)
    else if r.round_winner = some "computer" then
      if r.player_score < 33 then (some "computer", 2) else (some "computer", 1)
    else (none, 0)

/-- One state transition of the round loop `Round.play_round`: a trick with
some pair of chosen actions, a draw step, or an executed action (the
winner-privilege swap/close/pass choices, and the card plays the UI loop
routes through `execute_action`). -/
inductive Round.Step : Round → Round → Prop
  | trick (r r' : Round) (leader_action follower_action : Action) (w : Bool) :
      r.play_trick leader_action follower_action = some (r', w) → Round.Step r r'
  | draw (r : Round) : Round.Step r r.draw_cards
  | action (r r' : Round) (player : String) (a : Action) (lead_card : Option Card)
      (c : Option Card) (m : Nat) :
      r.execute_action player a lead_card = some (r', c, m) → Round.Step r r'

/-- States a round can be in: freshly dealt from some permutation of the
24-card deck, or one step after a reachable state. -/
inductive Round.Reachable : Round → Prop
  | init (deck : List Card) (player_starts : Bool) (r : Round) :
      deck.Perm create_deck → Round.init deck player_starts = some r →
      Round.Reachable r
  | step (r r' : Round) : Round.Reachable r → Round.Step r r' → Round.Reachable r'

/-- Total card tally of a round state: both hands, the draw pile, the
visible trump card, and the ghost count of cards played to tricks. -/
def Round.cardCount (r : Round) : Nat :=
  r.player_hand.length + r.computer_hand.length + r.draw_pile.length +
    (if r.trump_card.isSome then 1 else 0) + r.played

/-- Spec vocabulary: the closer of a closed round — `closed_by` holds
"you" when the player closed (that is how `execute_action` records it). -/
def Round.closerName (r : Round) : String :=
  if r.closed_by = some "you" then "player" else "computer"

/-- Spec vocabulary: the defender of a closed round (the non-closer). -/
def Round.defenderName (r : Round) : String :=
  if r.closed_by = some "you" then "computer" else "player"

/-- Per-match mutable state of the Python `Match` class (the `ui` field is
display-only and omitted). -/
structure Match where
  player_game_points : Nat
  computer_game_points : Nat
  win_points : Nat
  round_number : Nat
  player_starts_next : Bool
deriving DecidableEq, Repr

/-- `Match.__init__` given who starts first (the random choice is the
caller's randomness). -/
def Match.init (player_starts : Bool) : Match :=
  { player_game_points := 0
    computer_game_points := 0
    win_points := 7
    round_number := 0
    player_starts_next := player_starts }

/-- One iteration body of the `Match.play` loop: bump the round number,
play a round with the given result `(winner, points)`, credit the points to
the winner's total, and alternate who starts the next round. -/
def Match.round_step (m : Match) (outcome : Option String × Nat) : Match :=
  let m1 := { m with round_number := m.round_number + 1 }
  let m2 :=
    if outcome.1 = some "player" then
      { m1 with player_game_points := m1.player_game_points + outcome.2 }
    else if outcome.1 = some "computer" then
      { m1 with computer_game_points := m1.computer_game_points + outcome.2 }
    else m1
  { m2 with player_starts_next := !m2.player_starts_next }

/-- The `while` loop of `Match.play`: rounds' results come from an oracle
indexed by round number (in the source each round is freshly shuffled and
played; the oracle abstracts that randomness), with explicit fuel.  The
source's early `break` re-tests exactly the loop condition, so the loop
state on exit is the same. -/
def Match.play_loop (outcomes : Nat → Option String × Nat) :
    Nat → Match → Match
  | 0, m => m
  | n + 1, m =>
    if m.player_game_points < m.win_points ∧ m.computer_game_points < m.win_points then
      Match.play_loop outcomes n (m.round_step (outcomes m.round_number))
    else m

/-- The final winner computation of `Match.play`. -/
def Match.winner (m : Match) : String :=
  if m.player_game_points ≥ m.win_points then "player" else "computer"

/-- The round dealt by `Round.init` from the unshuffled `create_deck`
(a concrete reachable state, used to instantiate theorems). -/
def round0 : Round :=
  { player_hand := [⟨.ace, .spades⟩, ⟨.king, .spades⟩, ⟨.jack, .spades⟩,
                    ⟨.ace, .clubs⟩, ⟨.king, .clubs⟩, ⟨.jack, .clubs⟩]
    computer_hand := [⟨.ten, .spades⟩, ⟨.queen, .spades⟩, ⟨.nine, .spades⟩,
                      ⟨.ten, .clubs⟩, ⟨.queen, .clubs⟩, ⟨.nine, .clubs⟩]
    trump_card := some ⟨.ace, .diamonds⟩
    trump_suit := .diamonds
    draw_pile := [⟨.nine, .hearts⟩, ⟨.jack, .hearts⟩, ⟨.queen, .hearts⟩,
                  ⟨.king, .hearts⟩, ⟨.ten, .hearts⟩, ⟨.ace, .hearts⟩,
                  ⟨.nine, .diamonds⟩, ⟨.jack, .diamonds⟩, ⟨.queen, .diamonds⟩,
                  ⟨.king, .diamonds⟩, ⟨.ten, .diamonds⟩]
    player_score := 0
    computer_score := 0
    player_leads := true
    closed := false
    closed_by := none
    round_winner := none
    win_score := 66
    played := 0 }

/-- A closed (phase-2) round used to instantiate theorems: trump is clubs,
the trump card is gone, the computer closed, nobody has reached 66. -/
def roundClosed : Round :=
  { player_hand := [⟨.queen, .hearts⟩, ⟨.nine, .spades⟩]
    computer_hand := [⟨.ace, .hearts⟩, ⟨.ten, .clubs⟩]
    trump_card := none
    trump_suit := .clubs
    draw_pile := []
    player_score := 30
    computer_score := 40
    player_leads := false
    closed := true
    closed_by := some "computer"
    round_winner := none
    win_score := 66
    played := 19 }

/-- A normally finished round used to instantiate theorems: the player
reached 66 (at 68) while the computer sits at 30. -/
def roundWon : Round :=
  { player_hand := []
    computer_hand := []
    trump_card := none
    trump_suit := .spades
    draw_pile := []
    player_score := 68
    computer_score := 30
    player_leads := true
    closed := false
    closed_by := none
    round_winner := some "player"
    win_score := 66
    played := 24 }

/-- An open phase-1 round used to instantiate theorems: the player leads at
46 points holding the king and queen of hearts (a 20-point marriage away
from 66); trump is clubs. -/
def roundMarriage : Round :=
  { player_hand := [⟨.king, .hearts⟩, ⟨.queen, .hearts⟩, ⟨.nine, .spades⟩]
    computer_hand := [⟨.jack, .diamonds⟩, ⟨.ten, .diamonds⟩, ⟨.ace, .spades⟩]
    trump_card := some ⟨.ace, .clubs⟩
    trump_suit := .clubs
    draw_pile := [⟨.nine, .diamonds⟩, ⟨.queen, .diamonds⟩]
    player_score := 46
    computer_score := 10
    player_leads := true
    closed := false
    closed_by := none
    round_winner := none
    win_score := 66
    played := 16 }

/-- A round at a winner-privilege point used to instantiate theorems: the
player holds the 9 of trump (clubs) while the 10 of clubs is the visible
trump card. -/
def roundSwap : Round :=
  { player_hand := [⟨.nine, .clubs⟩, ⟨.ace, .hearts⟩, ⟨.king, .diamonds⟩]
    computer_hand := [⟨.jack, .diamonds⟩, ⟨.ten, .spades⟩, ⟨.queen, .spades⟩]
    trump_card := some ⟨.ten, .clubs⟩
    trump_suit := .clubs
    draw_pile := [⟨.nine, .hearts⟩, ⟨.jack, .hearts⟩]
    player_score := 21
    computer_score := 14
    player_leads := true
    closed := false
    closed_by := none
    round_winner := none
    win_score := 66
    played := 14 }

/-- The state of `roundMarriage` after the player leads the king of hearts
announcing the hearts marriage (+20 before anything else) and the computer
answers with the jack of diamonds — i.e. just before the marriage 66-check
and trick resolution. -/
def roundMarriageAfterPlays : Round :=
  { player_hand := [⟨.queen, .hearts⟩, ⟨.nine, .spades⟩]
    computer_hand := [⟨.ten, .diamonds⟩, ⟨.ace, .spades⟩]
    trump_card := some ⟨.ace, .clubs⟩
    trump_suit := .clubs
    draw_pile := [⟨.nine, .diamonds⟩, ⟨.queen, .diamonds⟩]
    player_score := 66
    computer_score := 10
    player_leads := true
    closed := false
    closed_by := none
    round_winner := none
    win_score := 66
    played := 18 }

/-- A finished match state (the player at the 7-point target) used to
instantiate theorems. -/
def matchDone : Match :=
  { player_game_points := 7
    computer_game_points := 4
    win_points := 7
    round_number := 6
    player_starts_next := false }

theorem popLast_eq_some {α : Type} {l rest : List α} {c : α}
    (h : popLast l = some (c, rest)) :
    l.getLast? = some c ∧ rest = l.dropLast ∧ rest.length + 1 = l.length := by
  unfold popLast at h
  cases hg : l.getLast? with
  | none => rw [hg] at h; exact absurd h (by simp)
  | some a =>
    rw [hg] at h
    simp only [Option.some.injEq, Prod.mk.injEq] at h
    obtain ⟨rfl, rfl⟩ := h
    refine ⟨rfl, rfl, ?_⟩
    have hne : l ≠ [] := by rintro rfl; simp at hg
    have hlen : 0 < l.length := List.length_pos.mpr hne
    rw [List.length_dropLast]
    omega

theorem deal_length :
    ∀ (n : Nat) (ph ch deck ph' ch' deck' : List Card),
    deal n ph ch deck = some (ph', ch', deck') →
    ph'.length + ch'.length + deck'.length = ph.length + ch.length + deck.length := by
  intro n
  induction n with
  | zero =>
    intro ph ch deck ph' ch' deck' h
    simp only [deal, Option.some.injEq, Prod.mk.injEq] at h
    obtain ⟨rfl, rfl, rfl⟩ := h
    rfl
  | succ n ih =>
    intro ph ch deck ph' ch' deck' h
    unfold deal at h
    cases h1 : popLast deck with
    | none => rw [h1] at h; exact absurd h (by simp)
    | some p1 =>
      obtain ⟨c1, deck1⟩ := p1
      rw [h1] at h
      dsimp only at h
      cases h2 : popLast deck1 with
      | none => rw [h2] at h; exact absurd h (by simp)
      | some p2 =>
        obtain ⟨c2, deck2⟩ := p2
        rw [h2] at h
        have hrec := ih _ _ _ _ _ _ h
        have l1 := (popLast_eq_some h1).2.2
        have l2 := (popLast_eq_some h2).2.2
        simp only [List.length_append, List.length_cons, List.length_nil] at hrec ⊢
        omega

theorem init_cardCount {deck : List Card} {ps : Bool} {r : Round}
    (h : Round.init deck ps = some r) : r.cardCount = deck.length := by
  unfold Round.init at h
  cases h1 : deal 6 [] [] deck with
  | none => rw [h1] at h; exact absurd h (by simp)
  | some t1 =>
    obtain ⟨ph, ch, deck1⟩ := t1
    rw [h1] at h
    simp only [Option.bind_eq_bind, Option.some_bind] at h
    cases h2 : popLast deck1 with
    | none => rw [h2] at h; exact absurd h (by simp)
    | some p2 =>
      obtain ⟨tc, pile⟩ := p2
      rw [h2] at h
      simp only [Option.bind_eq_bind, Option.some_bind, Option.pure_def,
        Option.some.injEq] at h
      subst h
      have hd := deal_length 6 [] [] deck ph ch deck1 h1
      have hp := (popLast_eq_some h2).2.2
      simp only [List.length_nil] at hd
      simp [Round.cardCount]
      omega

theorem swap_cardCount (r : Round) (p : String) :
    (r.swap_nine_trump p).1.cardCount = r.cardCount := by
  unfold Round.swap_nine_trump
  dsimp only
  split
  · next nine tc h9 ht =>
    have hmem : nine ∈ r.hand_of p := List.mem_of_find?_eq_some h9
    have hlen : 0 < (r.hand_of p).length := List.length_pos.mpr (by
      rintro hh; rw [hh] at hmem; simp at hmem)
    have herase : ((r.hand_of p).erase nine).length = (r.hand_of p).length - 1 :=
      List.length_erase_of_mem hmem
    by_cases hp : p = "player" <;>
      simp [hp, Round.hand_of, Round.cardCount, ht] at herase hlen ⊢ <;>
      omega
  · rfl

theorem execute_cardCount {r r' : Round} {p : String} {a : Action}
    {lc : Option Card} {c : Option Card} {m : Nat}
    (h : r.execute_action p a lc = some (r', c, m)) : r'.cardCount = r.cardCount := by
  obtain ⟨t, ci, ms⟩ := a
  cases t with
  | swap_trump =>
    simp only [Round.execute_action, Option.some.injEq, Prod.mk.injEq] at h
    obtain ⟨rfl, -, -⟩ := h
    exact swap_cardCount r p
  | close_game =>
    simp only [Round.execute_action, Option.some.injEq, Prod.mk.injEq] at h
    obtain ⟨rfl, -, -⟩ := h
    simp [Round.cardCount]
  | pass =>
    simp only [Round.execute_action, Option.some.injEq, Prod.mk.injEq] at h
    obtain ⟨rfl, -, -⟩ := h
    rfl
  | play_card =>
    simp only [Round.execute_action] at h
    cases ci with
    | none => exact absurd h (by simp)
    | some i =>
      simp only at h
      cases hg : (r.hand_of p)[i]? with
      | none => rw [hg] at h; exact absurd h (by simp)
      | some card =>
        rw [hg] at h
        simp only [Option.some.injEq, Prod.mk.injEq] at h
        obtain ⟨rfl, -, -⟩ := h
        have hmem : card ∈ r.hand_of p := List.getElem?_mem hg
        have hlen : 0 < (r.hand_of p).length := List.length_pos.mpr (by
          rintro hh; rw [hh] at hmem; simp at hmem)
        have herase : ((r.hand_of p).erase card).length = (r.hand_of p).length - 1 :=
          List.length_erase_of_mem hmem
        by_cases hp : p = "player" <;>
          simp [hp, Round.hand_of, Round.cardCount] at herase hlen ⊢ <;>
          omega

theorem draw_cardCount (r : Round) : r.draw_cards.cardCount = r.cardCount := by
  unfold Round.draw_cards
  by_cases hc : r.closed = true
  · simp [hc]
  · rw [if_neg hc]
    cases h1 : popLast r.draw_pile with
    | some p1 =>
      obtain ⟨c1, rest1⟩ := p1
      have l1 := (popLast_eq_some h1).2.2
      cases h2 : popLast rest1 with
      | some p2 =>
        obtain ⟨c2, rest2⟩ := p2
        have l2 := (popLast_eq_some h2).2.2
        by_cases hl : r.player_leads = true <;>
          simp [hl, h2, Round.cardCount] <;> omega
      | none =>
        cases ht : r.trump_card with
        | some tc =>
          by_cases hl : r.player_leads = true <;>
            simp [hl, h2, ht, Round.cardCount] <;> omega
        | none =>
          by_cases hl : r.player_leads = true <;>
            simp [hl, h2, ht, Round.cardCount] <;> omega
    | none =>
      cases ht : r.trump_card with
      | none => simp [ht]
      | some tc =>
        by_cases hl : r.player_leads = true <;>
          simp [hl, ht, Round.cardCount] <;> omega

theorem marriage_check_cardCount (r : Round) (pm cm : Nat) :
    (r.trick_marriage_check pm cm).cardCount = r.cardCount := by
  unfold Round.trick_marriage_check
  dsimp only
  split <;> split <;> rfl

theorem resolve_cardCount (r : Round) (pc cc : Card) (ls : Suit) :
    (r.trick_resolve pc cc ls).1.cardCount = r.cardCount := by
  unfold Round.trick_resolve
  dsimp only
  split <;> split <;> first | rfl | (split <;> rfl)

theorem trick_after_plays_cardCount {r r3 : Round} {la fa : Action}
    {pc cc : Card} {pm cm : Nat}
    (h : r.trick_after_plays la fa = some (r3, pc, cc, pm, cm)) :
    r3.cardCount = r.cardCount := by
  unfold Round.trick_after_plays at h
  by_cases hl : r.player_leads <;> simp only [hl, ite_true, ite_false] at h
  · cases h1 : r.execute_action "player" la none with
    | none => rw [h1] at h; exact absurd h (by simp)
    | some t1 =>
      obtain ⟨r1, oc1, m1⟩ := t1
      rw [h1] at h
      cases oc1 with
      | none => exact absurd h (by simp)
      | some pcard =>
        simp only at h
        set r2 := if m1 ≠ 0 then { r1 with player_score := r1.player_score + m1 } else r1 with hr2
        cases h2 : r2.execute_action "computer" fa (some pcard) with
        | none => rw [h2] at h; exact absurd h (by simp)
        | some t2 =>
          obtain ⟨rr, oc2, m2⟩ := t2
          rw [h2] at h
          cases oc2 with
          | none => exact absurd h (by simp)
          | some ccard =>
            simp only [Option.some.injEq, Prod.mk.injEq] at h
            obtain ⟨rfl, -, -, -, -⟩ := h
            have e2 := execute_cardCount h2
            have e1 := execute_cardCount h1
            have hr2c : r2.cardCount = r1.cardCount := by
              rw [hr2]; split <;> rfl
            omega
  · cases h1 : r.execute_action "computer" la none with
    | none => rw [h1] at h; exact absurd h (by simp)
    | some t1 =>
      obtain ⟨r1, oc1, m1⟩ := t1
      rw [h1] at h
      cases oc1 with
      | none => exact absurd h (by simp)
      | some ccard =>
        simp only at h
        set r2 := if m1 ≠ 0 then { r1 with computer_score := r1.computer_score + m1 } else r1 with hr2
        cases h2 : r2.execute_action "player" fa (some ccard) with
        | none => rw [h2] at h; exact absurd h (by simp)
        | some t2 =>
          obtain ⟨rr, oc2, m2⟩ := t2
          rw [h2] at h
          cases oc2 with
          | none => exact absurd h (by simp)
          | some pcard =>
            simp only [Option.some.injEq, Prod.mk.injEq] at h
            obtain ⟨rfl, -, -, -, -⟩ := h
            have e2 := execute_cardCount h2
            have e1 := execute_cardCount h1
            have hr2c : r2.cardCount = r1.cardCount := by
              rw [hr2]; split <;> rfl
            omega

theorem play_trick_cardCount {r r' : Round} {la fa : Action} {w : Bool}
    (h : r.play_trick la fa = some (r', w)) : r'.cardCount = r.cardCount := by
  unfold Round.play_trick at h
  cases h1 : r.trick_after_plays la fa with
  | none => rw [h1] at h; exact absurd h (by simp)
  | some t =>
    obtain ⟨r1, pc, cc, pm, cm⟩ := t
    rw [h1] at h
    simp only [Option.some.injEq] at h
    have hr : r' = ((r1.trick_marriage_check pm cm).trick_resolve pc cc
        (if r.player_leads then pc.suit else cc.suit)).1 := by
      rw [h]
    rw [hr, resolve_cardCount, marriage_check_cardCount]
    exact trick_after_plays_cardCount h1

theorem step_cardCount {r r' : Round} (h : Round.Step r r') :
    r'.cardCount = r.cardCount := by
  cases h with
  | trick _ la fa w heq => exact play_trick_cardCount heq
  | draw => exact draw_cardCount r
  | action _ p a lc c m hex => exact execute_cardCount hex

/-- C1: in every reachable round state — freshly dealt, or after any
trick, draw step, or executed action — the player's hand, the computer's
hand, the draw pile, the visible trump card (counted as 1 when present)
and the cards already played to tricks add up to 24 cards. -/
theorem c1_card_conservation (r : Round) (h : Round.Reachable r) :
    r.cardCount = 24 := by
  induction h with
  | init deck ps r hperm hinit =>
    have hl : deck.length = 24 := by
      have h24 : create_deck.length = 24 := rfl
      rw [hperm.length_eq, h24]
    rw [init_cardCount hinit, hl]
  | step r r' _ hstep ih => rw [step_cardCount hstep, ih]

/-- C1 witness: the conservation law evaluated on the concrete round dealt
from the unshuffled deck. -/
theorem c1_card_conservation_witness : round0.cardCount = 24 :=
  c1_card_conservation round0
    (Round.Reachable.init create_deck true round0 (List.Perm.refl _) (by decide))

/-- C7 counterexample: `card_strength` is not a strict total order on
arbitrary pairs of distinct cards — with hearts led and spades trump, the
9 of diamonds and the 9 of clubs are distinct yet have equal strength. -/
theorem c7_strength_tie_counterexample :
    (⟨Rank.nine, Suit.diamonds⟩ : Card) ≠ ⟨Rank.nine, Suit.clubs⟩ ∧
    card_strength ⟨Rank.nine, Suit.diamonds⟩ Suit.hearts Suit.spades =
      card_strength ⟨Rank.nine, Suit.clubs⟩ Suit.hearts Suit.spades := by
  decide

/-- C7 (amended): within one trick — where one of the two compared cards is
the leader's card, whose suit is the lead suit — `card_strength` is a strict
total order: for any two distinct cards of which one follows the lead suit,
exactly one strictly exceeds the other, for every choice of trump suit. -/
theorem c7_strength_total_on_lead :
    ∀ (c1 c2 : Card) (lead trump : Suit), c1 ≠ c2 → c1.suit = lead →
    ((card_strength c1 lead trump > card_strength c2 lead trump ∧
      ¬ card_strength c2 lead trump > card_strength c1 lead trump) ∨
     (card_strength c2 lead trump > card_strength c1 lead trump ∧
      ¬ card_strength c1 lead trump > card_strength c2 lead trump)) := by
  decide

/-- C7 witness: the trichotomy evaluated at the ace and king of hearts with
hearts led and spades trump. -/
theorem c7_strength_total_on_lead_witness :
    (card_strength ⟨Rank.ace, Suit.hearts⟩ Suit.hearts Suit.spades >
       card_strength ⟨Rank.king, Suit.hearts⟩ Suit.hearts Suit.spades ∧
     ¬ card_strength ⟨Rank.king, Suit.hearts⟩ Suit.hearts Suit.spades >
       card_strength ⟨Rank.ace, Suit.hearts⟩ Suit.hearts Suit.spades) ∨
    (card_strength ⟨Rank.king, Suit.hearts⟩ Suit.hearts Suit.spades >
       card_strength ⟨Rank.ace, Suit.hearts⟩ Suit.hearts Suit.spades ∧
     ¬ card_strength ⟨Rank.ace, Suit.hearts⟩ Suit.hearts Suit.spades >
       card_strength ⟨Rank.king, Suit.hearts⟩ Suit.hearts Suit.spades) :=
  c7_strength_total_on_lead ⟨Rank.ace, Suit.hearts⟩ ⟨Rank.king, Suit.hearts⟩
    Suit.hearts Suit.spades (by decide) (by decide)

/-- C5: the legal-card computation returns the whole hand when leading or in
Phase 1; in Phase 2 when responding it returns the cards of the lead card's
suit if any, else the cards of the trump suit if any, else the whole hand. -/
theorem c5_valid_cards (r : Round) (hand : List Card) (lc : Card) :
    (r.get_valid_cards hand none = hand) ∧
    (r.phase = 1 → r.get_valid_cards hand (some lc) = hand) ∧
    (r.phase = 2 →
      ((∃ c ∈ hand, c.suit = lc.suit) →
        r.get_valid_cards hand (some lc) = hand.filter (fun c => c.suit == lc.suit)) ∧
      ((∀ c ∈ hand, c.suit ≠ lc.suit) → (∃ c ∈ hand, c.suit = r.trump_suit) →
        r.get_valid_cards hand (some lc) = hand.filter (fun c => c.suit == r.trump_suit)) ∧
      ((∀ c ∈ hand, c.suit ≠ lc.suit) → (∀ c ∈ hand, c.suit ≠ r.trump_suit) →
        r.get_valid_cards hand (some lc) = hand)) := by
  refine ⟨rfl, ?_, ?_⟩
  · intro h1
    unfold Round.get_valid_cards
    dsimp only
    rw [if_pos h1]
  · intro h2
    have hn1 : ¬ r.phase = 1 := by omega
    refine ⟨?_, ?_, ?_⟩
    · rintro ⟨c, hc, hcs⟩
      unfold Round.get_valid_cards
      dsimp only
      rw [if_neg hn1]
      have hne : hand.filter (fun c => c.suit == lc.suit) ≠ [] := by
        simp only [ne_eq, List.filter_eq_nil_iff, not_forall]
        exact ⟨c, hc, by simp [hcs]⟩
      simp only [ne_eq, hne, not_false_iff, ite_true, if_pos]
    · intro hall ⟨c, hc, hcs⟩
      unfold Round.get_valid_cards
      dsimp only
      rw [if_neg hn1]
      have he : hand.filter (fun c => c.suit == lc.suit) = [] := by
        simp only [List.filter_eq_nil_iff]
        intro a ha
        simp [hall a ha]
      have hne : hand.filter (fun c => c.suit == r.trump_suit) ≠ [] := by
        simp only [ne_eq, List.filter_eq_nil_iff, not_forall]
        exact ⟨c, hc, by simp [hcs]⟩
      simp only [he, ne_eq, not_true, ite_false, hne, not_false_iff, ite_true]
    · intro hall1 hall2
      unfold Round.get_valid_cards
      dsimp only
      rw [if_neg hn1]
      have he1 : hand.filter (fun c => c.suit == lc.suit) = [] := by
        simp only [List.filter_eq_nil_iff]
        intro a ha
        simp [hall1 a ha]
      have he2 : hand.filter (fun c => c.suit == r.trump_suit) = [] := by
        simp only [List.filter_eq_nil_iff]
        intro a ha
        simp [hall2 a ha]
      simp only [he1, he2, ne_eq, not_true, ite_false]

/-- C5 witness: the follow-suit rule evaluated on concrete rounds — the
whole hand in Phase 1, and only the queen of hearts against a hearts lead
in the closed (Phase-2) round. -/
theorem c5_valid_cards_witness :
    roundMarriage.get_valid_cards roundMarriage.player_hand (some ⟨Rank.ace, Suit.hearts⟩) =
      roundMarriage.player_hand ∧
    roundClosed.get_valid_cards roundClosed.player_hand (some ⟨Rank.king, Suit.hearts⟩) =
      [⟨Rank.queen, Suit.hearts⟩] :=
  ⟨(c5_valid_cards roundMarriage roundMarriage.player_hand ⟨Rank.ace, Suit.hearts⟩).2.1
      (by decide),
   ((c5_valid_cards roundClosed roundClosed.player_hand ⟨Rank.king, Suit.hearts⟩).2.2
      (by decide)).1 (by decide)⟩

/-- C3: game-point calculation — in a closed round the closer gets 3 game
points exactly when the round winner is the closer and the defender gets 3
otherwise (whatever the scores, even if nobody reached 66); in an unclosed
round a winner gets 2 game points when the loser's score is below 33 and 1
otherwise; with no winner the result is no winner and 0 points. -/
theorem c3_game_points (r : Round) :
    (r.closed = true →
      r.calculate_game_points =
        (if r.round_winner = some r.closerName then (some r.closerName, 3)
         else (some r.defenderName, 3))) ∧
    (r.closed = false → r.round_winner = some "player" →
      r.calculate_game_points =
        (some "player", if r.computer_score < 33 then 2 else 1)) ∧
    (r.closed = false → r.round_winner = some "computer" →
      r.calculate_game_points =
        (some "computer", if r.player_score < 33 then 2 else 1)) ∧
    (r.closed = false → r.round_winner = none →
      r.calculate_game_points = (none, 0)) := by
  refine ⟨?_, ?_, ?_, ?_⟩
  · intro hc
    by_cases hby : r.closed_by = some "you"
    · by_cases hw : r.round_winner = some "player" <;>
        simp [Round.calculate_game_points, Round.closerName, Round.defenderName,
          hc, hby, hw]
    · by_cases hw : r.round_winner = some "computer" <;>
        simp [Round.calculate_game_points, Round.closerName, Round.defenderName,
          hc, hby, hw]
  · intro hc hw
    by_cases h33 : r.computer_score < 33 <;>
      simp [Round.calculate_game_points, hc, hw, h33]
  · intro hc hw
    by_cases h33 : r.player_score < 33 <;>
      simp [Round.calculate_game_points, hc, hw, h33]
  · intro hc hw
    simp [Round.calculate_game_points, hc, hw]

/-- C3 witness: the three outcome families evaluated on concrete rounds —
the computer closed `roundClosed` and never won, so the player (defender)
takes 3; the player won `roundWon` with the computer at 30 (< 33), taking
2; `roundMarriage` is unfinished, 0 points. -/
theorem c3_game_points_witness :
    roundClosed.calculate_game_points = (some "player", 3) ∧
    roundWon.calculate_game_points = (some "player", 2) ∧
    roundMarriage.calculate_game_points = (none, 0) := by
  refine ⟨?_, ?_, ?_⟩
  · have h := (c3_game_points roundClosed).1 (by decide)
    rw [h]; decide
  · have h := (c3_game_points roundWon).2.1 (by decide) (by decide)
    rw [h]; decide
  · exact (c3_game_points roundMarriage).2.2.2 (by decide) (by decide)

/-- C8: for a hand holding the 9 of trump while a trump card is visible,
`swap_nine_trump` removes that 9 from the hand, appends the formerly
visible trump card to it, makes the 9 the visible trump card, and leaves
the trump suit, both scores, the draw pile and the other hand unchanged. -/
theorem c8_swap_nine_trump (r : Round) (p : String) (nine tc : Card)
    (h9 : r.has_nine_trump (r.hand_of p) = some nine)
    (ht : r.trump_card = some tc) :
    (r.swap_nine_trump p).2 = true ∧
    nine.rank = Rank.nine ∧ nine.suit = r.trump_suit ∧
    (p = "player" →
      (r.swap_nine_trump p).1.player_hand = r.player_hand.erase nine ++ [tc] ∧
      (r.swap_nine_trump p).1.computer_hand = r.computer_hand) ∧
    (p ≠ "player" →
      (r.swap_nine_trump p).1.computer_hand = r.computer_hand.erase nine ++ [tc] ∧
      (r.swap_nine_trump p).1.player_hand = r.player_hand) ∧
    (r.swap_nine_trump p).1.trump_card = some nine ∧
    (r.swap_nine_trump p).1.trump_suit = r.trump_suit ∧
    (r.swap_nine_trump p).1.player_score = r.player_score ∧
    (r.swap_nine_trump p).1.computer_score = r.computer_score ∧
    (r.swap_nine_trump p).1.draw_pile = r.draw_pile := by
  have hpred := List.find?_some h9
  simp only [Bool.and_eq_true, beq_iff_eq] at hpred
  obtain ⟨hrank, hsuit⟩ := hpred
  unfold Round.swap_nine_trump
  dsimp only
  rw [h9, ht]
  dsimp only
  by_cases hp : p = "player" <;>
    simp [hp, Round.hand_of, hrank, hsuit]

/-- C8 witness: the swap evaluated on `roundSwap`, where the player holds
the 9 of clubs (trump) and the 10 of clubs is the visible trump card. -/
theorem c8_swap_nine_trump_witness :
    (roundSwap.swap_nine_trump "player").2 = true ∧
    (roundSwap.swap_nine_trump "player").1.player_hand =
      roundSwap.player_hand.erase ⟨Rank.nine, Suit.clubs⟩ ++ [⟨Rank.ten, Suit.clubs⟩] ∧
    (roundSwap.swap_nine_trump "player").1.computer_hand = roundSwap.computer_hand ∧
    (roundSwap.swap_nine_trump "player").1.trump_card = some ⟨Rank.nine, Suit.clubs⟩ ∧
    (roundSwap.swap_nine_trump "player").1.trump_suit = roundSwap.trump_suit := by
  have h := c8_swap_nine_trump roundSwap "player" ⟨Rank.nine, Suit.clubs⟩
    ⟨Rank.ten, Suit.clubs⟩ (by decide) (by decide)
  exact ⟨h.1, (h.2.2.2.1 rfl).1, (h.2.2.2.1 rfl).2, h.2.2.2.2.2.1, h.2.2.2.2.2.2.1⟩

theorem swap_closed (r : Round) (p : String) :
    (r.swap_nine_trump p).1.closed = r.closed := by
  unfold Round.swap_nine_trump
  dsimp only
  split
  · next => split <;> rfl
  · rfl

theorem execute_closed {r r' : Round} {p : String} {a : Action}
    {lc : Option Card} {c : Option Card} {m : Nat}
    (hcl : r.closed = true)
    (h : r.execute_action p a lc = some (r', c, m)) : r'.closed = true := by
  obtain ⟨t, ci, ms⟩ := a
  cases t with
  | swap_trump =>
    simp only [Round.execute_action, Option.some.injEq, Prod.mk.injEq] at h
    obtain ⟨rfl, -, -⟩ := h
    rw [swap_closed]
    exact hcl
  | close_game =>
    simp only [Round.execute_action, Option.some.injEq, Prod.mk.injEq] at h
    obtain ⟨rfl, -, -⟩ := h
    rfl
  | pass =>
    simp only [Round.execute_action, Option.some.injEq, Prod.mk.injEq] at h
    obtain ⟨rfl, -, -⟩ := h
    exact hcl
  | play_card =>
    simp only [Round.execute_action] at h
    cases ci with
    | none => exact absurd h (by simp)
    | some i =>
      simp only at h
      cases hg : (r.hand_of p)[i]? with
      | none => rw [hg] at h; exact absurd h (by simp)
      | some card =>
        rw [hg] at h
        simp only [Option.some.injEq, Prod.mk.injEq] at h
        obtain ⟨rfl, -, -⟩ := h
        by_cases hp : p = "player" <;> simp [hp] <;> exact hcl

theorem marriage_check_closed (r : Round) (pm cm : Nat) :
    (r.trick_marriage_check pm cm).closed = r.closed := by
  unfold Round.trick_marriage_check
  dsimp only
  split <;> split <;> rfl

theorem resolve_closed (r : Round) (pc cc : Card) (ls : Suit) :
    (r.trick_resolve pc cc ls).1.closed = r.closed := by
  unfold Round.trick_resolve
  dsimp only
  split <;> first | rfl | (split <;> first | rfl | (split <;> rfl))

theorem trick_after_plays_closed {r r3 : Round} {la fa : Action}
    {pc cc : Card} {pm cm : Nat}
    (hcl : r.closed = true)
    (h : r.trick_after_plays la fa = some (r3, pc, cc, pm, cm)) :
    r3.closed = true := by
  unfold Round.trick_after_plays at h
  by_cases hl : r.player_leads <;> simp only [hl, ite_true, ite_false] at h
  · cases h1 : r.execute_action "player" la none with
    | none => rw [h1] at h; exact absurd h (by simp)
    | some t1 =>
      obtain ⟨r1, oc1, m1⟩ := t1
      rw [h1] at h
      cases oc1 with
      | none => exact absurd h (by simp)
      | some pcard =>
        simp only at h
        set r2 := if m1 ≠ 0 then { r1 with player_score := r1.player_score + m1 } else r1 with hr2
        cases h2 : r2.execute_action "computer" fa (some pcard) with
        | none => rw [h2] at h; exact absurd h (by simp)
        | some t2 =>
          obtain ⟨rr, oc2, m2⟩ := t2
          rw [h2] at h
          cases oc2 with
          | none => exact absurd h (by simp)
          | some ccard =>
            simp only [Option.some.injEq, Prod.mk.injEq] at h
            obtain ⟨rfl, -, -, -, -⟩ := h
            have hc1 : r1.closed = true := execute_closed hcl h1
            have hc2 : r2.closed = true := by
              rw [hr2]; split <;> simpa using hc1
            exact execute_closed hc2 h2
  · cases h1 : r.execute_action "computer" la none with
    | none => rw [h1] at h; exact absurd h (by simp)
    | some t1 =>
      obtain ⟨r1, oc1, m1⟩ := t1
      rw [h1] at h
      cases oc1 with
      | none => exact absurd h (by simp)
      | some ccard =>
        simp only at h
        set r2 := if m1 ≠ 0 then { r1 with computer_score := r1.computer_score + m1 } else r1 with hr2
        cases h2 : r2.execute_action "player" fa (some ccard) with
        | none => rw [h2] at h; exact absurd h (by simp)
        | some t2 =>
          obtain ⟨rr, oc2, m2⟩ := t2
          rw [h2] at h
          cases oc2 with
          | none => exact absurd h (by simp)
          | some pcard =>
            simp only [Option.some.injEq, Prod.mk.injEq] at h
            obtain ⟨rfl, -, -, -, -⟩ := h
            have hc1 : r1.closed = true := execute_closed hcl h1
            have hc2 : r2.closed = true := by
              rw [hr2]; split <;> simpa using hc1
            exact execute_closed hc2 h2

theorem play_trick_closed {r r' : Round} {la fa : Action} {w : Bool}
    (hcl : r.closed = true) (h : r.play_trick la fa = some (r', w)) :
    r'.closed = true := by
  unfold Round.play_trick at h
  cases h1 : r.trick_after_plays la fa with
  | none => rw [h1] at h; exact absurd h (by simp)
  | some t =>
    obtain ⟨r1, pc, cc, pm, cm⟩ := t
    rw [h1] at h
    simp only [Option.some.injEq] at h
    have hr : r' = ((r1.trick_marriage_check pm cm).trick_resolve pc cc
        (if r.player_leads then pc.suit else cc.suit)).1 := by
      rw [h]
    rw [hr, resolve_closed, marriage_check_closed]
    exact trick_after_plays_closed hcl h1

/-- C6: once closed, the phase is 2, the draw step changes neither hand nor
the draw pile nor the trump card, and every further round step keeps the
round closed — so both facts persist for the remainder of the round. -/
theorem c6_closed_forces_phase2_and_no_draws (r : Round) (h : r.closed = true) :
    r.phase = 2 ∧
    r.draw_cards.player_hand = r.player_hand ∧
    r.draw_cards.computer_hand = r.computer_hand ∧
    r.draw_cards.draw_pile = r.draw_pile ∧
    r.draw_cards.trump_card = r.trump_card ∧
    (∀ r', Round.Step r r' → r'.closed = true) := by
  have hdraw : r.draw_cards = r := by
    unfold Round.draw_cards
    rw [if_pos h]
  refine ⟨?_, by rw [hdraw], by rw [hdraw], by rw [hdraw], by rw [hdraw], ?_⟩
  · unfold Round.phase
    rw [if_pos h]
  · intro r' hstep
    cases hstep with
    | trick _ la fa w heq => exact play_trick_closed h heq
    | draw => rw [hdraw]; exact h
    | action _ p a lc c m hex => exact execute_closed h hex

/-- C6 witness: the closed-round facts evaluated on `roundClosed`. -/
theorem c6_closed_forces_phase2_and_no_draws_witness :
    roundClosed.phase = 2 ∧
    roundClosed.draw_cards.player_hand = roundClosed.player_hand ∧
    roundClosed.draw_cards.draw_pile = roundClosed.draw_pile ∧
    roundClosed.draw_cards.trump_card = roundClosed.trump_card := by
  have h := c6_closed_forces_phase2_and_no_draws roundClosed (by decide)
  exact ⟨h.1, h.2.1, h.2.2.2.1, h.2.2.2.2.1⟩

/-- C2 counterexample: in the closed (Phase-2) round `roundClosed` with the
king of hearts led, playing hand index 1 — the 9 of spades, which breaks
the follow-suit rule — is absent from the legal-action list, yet
`execute_action` performs it (removing the card from the hand and returning
it) instead of aborting. -/
theorem c2_no_revalidation_counterexample :
    Action.mk ActionType.play_card (some 1) none ∉
      roundClosed.get_valid_actions "player" (some ⟨Rank.king, Suit.hearts⟩) false ∧
    roundClosed.execute_action "player" (Action.mk ActionType.play_card (some 1) none)
        (some ⟨Rank.king, Suit.hearts⟩) =
      some ({ roundClosed with player_hand := [⟨Rank.queen, Suit.hearts⟩], played := 20 },
            some ⟨Rank.nine, Suit.spades⟩, 0) := by
  decide

/-- C2 (amended): the engine does not re-validate supplied actions:
`execute_action` performs any PLAY_CARD whose index is in range — removing
that card from the hand and returning it with 0 marriage points — whether
or not the action appears in the legal-action list for the decision point;
it never aborts an action for being illegal. -/
theorem c2_execute_without_validation (r : Round) (p : String) (i : Nat)
    (lc : Option Card) (h : i < (r.hand_of p).length) :
    (r.execute_action p (Action.mk ActionType.play_card (some i) none) lc).map
        (fun t => (t.1.hand_of p, t.2.1, t.2.2)) =
      some ((r.hand_of p).erase ((r.hand_of p).get ⟨i, h⟩),
            some ((r.hand_of p).get ⟨i, h⟩), 0) := by
  have hg : (r.hand_of p)[i]? = some ((r.hand_of p).get ⟨i, h⟩) := by
    rw [List.getElem?_eq_getElem h]
    simp [List.get_eq_getElem]
  unfold Round.execute_action
  dsimp only
  rw [hg]
  dsimp only
  by_cases hp : p = "player" <;> simp [hp, Round.hand_of]

/-- C2 witness: the amended no-validation behaviour evaluated at the
illegal index-1 play of `roundClosed` used in the counterexample. -/
theorem c2_execute_without_validation_witness :
    (roundClosed.execute_action "player"
        (Action.mk ActionType.play_card (some 1) none)
        (some ⟨Rank.king, Suit.hearts⟩)).map
        (fun t => (t.1.hand_of "player", t.2.1, t.2.2)) =
      some (roundClosed.player_hand.erase (roundClosed.player_hand.get ⟨1, by decide⟩),
            some (roundClosed.player_hand.get ⟨1, by decide⟩), 0) :=
  c2_execute_without_validation roundClosed "player" 1
    (some ⟨Rank.king, Suit.hearts⟩) (by decide)

theorem execute_scores {r r' : Round} {p : String} {a : Action}
    {lc : Option Card} {c : Option Card} {m : Nat}
    (h : r.execute_action p a lc = some (r', c, m)) :
    r'.player_score = r.player_score ∧ r'.computer_score = r.computer_score ∧
    r'.win_score = r.win_score := by
  obtain ⟨t, ci, ms⟩ := a
  cases t with
  | swap_trump =>
    simp only [Round.execute_action, Option.some.injEq, Prod.mk.injEq] at h
    obtain ⟨rfl, -, -⟩ := h
    unfold Round.swap_nine_trump
    dsimp only
    split
    · next => split <;> exact ⟨rfl, rfl, rfl⟩
    · exact ⟨rfl, rfl, rfl⟩
  | close_game =>
    simp only [Round.execute_action, Option.some.injEq, Prod.mk.injEq] at h
    obtain ⟨rfl, -, -⟩ := h
    exact ⟨rfl, rfl, rfl⟩
  | pass =>
    simp only [Round.execute_action, Option.some.injEq, Prod.mk.injEq] at h
    obtain ⟨rfl, -, -⟩ := h
    exact ⟨rfl, rfl, rfl⟩
  | play_card =>
    simp only [Round.execute_action] at h
    cases ci with
    | none => exact absurd h (by simp)
    | some i =>
      simp only at h
      cases hg : (r.hand_of p)[i]? with
      | none => rw [hg] at h; exact absurd h (by simp)
      | some card =>
        rw [hg] at h
        simp only [Option.some.injEq, Prod.mk.injEq] at h
        obtain ⟨rfl, -, -⟩ := h
        by_cases hp : p = "player" <;> simp [hp]

theorem execute_play_marriage_points {r r' : Round} {p : String} {a : Action}
    {lc : Option Card} {card : Card} {m : Nat} {s : Suit}
    (hm : a.marriage_suit = some s)
    (h : r.execute_action p a lc = some (r', some card, m)) :
    m = r.marriage_value s := by
  obtain ⟨t, ci, ms⟩ := a
  simp only at hm
  subst hm
  cases t with
  | swap_trump => exact absurd h (by simp [Round.execute_action])
  | close_game => exact absurd h (by simp [Round.execute_action])
  | pass => exact absurd h (by simp [Round.execute_action])
  | play_card =>
    simp only [Round.execute_action] at h
    cases ci with
    | none => exact absurd h (by simp)
    | some i =>
      simp only at h
      cases hg : (r.hand_of p)[i]? with
      | none => rw [hg] at h; exact absurd h (by simp)
      | some card1 =>
        rw [hg] at h
        simp only [Option.some.injEq, Prod.mk.injEq] at h
        exact h.2.2.symm

theorem marriage_value_ne_zero (r : Round) (s : Suit) : r.marriage_value s ≠ 0 := by
  unfold Round.marriage_value
  split <;> simp

/-- C4: a leading marriage announcement is credited to the announcer before
trick resolution: in the state both plays produce (the one the 66-check and
the resolution run on) the announcer's score is already up by the marriage
value — 40 when the suit is trump, 20 otherwise — and `play_trick` factors
as the marriage 66-check followed by trick resolution, so whenever the
score plus the marriage value reaches 66 the announcer is recorded as round
winner by the check itself, with no trick points added yet. -/
theorem c4_marriage_before_trick (r : Round) (la fa : Action) (s : Suit)
    (r3 : Round) (pc cc : Card) (pm cm : Nat)
    (hm : la.marriage_suit = some s)
    (hplays : r.trick_after_plays la fa = some (r3, pc, cc, pm, cm)) :
    (r.player_leads = true →
      pm = (if s = r.trump_suit then 40 else 20) ∧
      r3.player_score = r.player_score + pm ∧
      r3.win_score = r.win_score ∧
      r.play_trick la fa =
        some ((r3.trick_marriage_check pm cm).trick_resolve pc cc pc.suit) ∧
      (r.player_score + pm ≥ r.win_score →
        (r3.trick_marriage_check pm cm).round_winner = some "player" ∧
        (r3.trick_marriage_check pm cm).player_score = r.player_score + pm)) ∧
    (r.player_leads = false →
      cm = (if s = r.trump_suit then 40 else 20) ∧
      r3.computer_score = r.computer_score + cm ∧
      r3.win_score = r.win_score ∧
      r.play_trick la fa =
        some ((r3.trick_marriage_check pm cm).trick_resolve pc cc cc.suit) ∧
      (r.computer_score + cm ≥ r.win_score →
        (r3.trick_marriage_check pm cm).round_winner = some "computer" ∧
        (r3.trick_marriage_check pm cm).computer_score = r.computer_score + cm)) := by
  have hfact0 : r.play_trick la fa =
      some ((r3.trick_marriage_check pm cm).trick_resolve pc cc
        (if r.player_leads then pc.suit else cc.suit)) := by
    unfold Round.play_trick
    rw [hplays]
  constructor
  · intro hl
    unfold Round.trick_after_plays at hplays
    rw [if_pos hl] at hplays
    cases h1 : r.execute_action "player" la none with
    | none => rw [h1] at hplays; exact absurd hplays (by simp)
    | some t1 =>
      obtain ⟨r1, oc1, m1⟩ := t1
      rw [h1] at hplays
      cases oc1 with
      | none => exact absurd hplays (by simp)
      | some pcard =>
        simp only at hplays
        set r2 := if m1 ≠ 0 then { r1 with player_score := r1.player_score + m1 } else r1 with hr2
        cases h2 : r2.execute_action "computer" fa (some pcard) with
        | none => rw [h2] at hplays; exact absurd hplays (by simp)
        | some t2 =>
          obtain ⟨rr, oc2, m2⟩ := t2
          rw [h2] at hplays
          cases oc2 with
          | none => exact absurd hplays (by simp)
          | some ccard =>
            simp only [Option.some.injEq, Prod.mk.injEq] at hplays
            obtain ⟨h3, hpc, hcc, hpm, hcm⟩ := hplays
            have hpmv : pm = r.marriage_value s := by
              rw [← hpm]; exact execute_play_marriage_points hm h1
            have hpm0 : pm ≠ 0 := hpmv ▸ marriage_value_ne_zero r s
            have hs1 := execute_scores h1
            have hs2 := execute_scores h2
            have hr2s : r2.player_score = r.player_score + pm ∧
                r2.win_score = r.win_score := by
              rw [← hpm] at hpm0 ⊢
              rw [hr2, if_pos hpm0]
              exact ⟨by rw [hs1.1], hs1.2.2⟩
            have hps : r3.player_score = r.player_score + pm := by
              rw [← h3, hs2.1, hr2s.1]
            have hws : r3.win_score = r.win_score := by
              rw [← h3, hs2.2.2, hr2s.2]
            refine ⟨by rw [hpmv]; rfl, hps, hws, by rw [hfact0, if_pos hl], ?_⟩
            intro hge
            rw [← hcm]
            unfold Round.trick_marriage_check
            dsimp only
            rw [if_neg (by simp)]
            rw [if_pos ⟨hpm0, by rw [hps, hws]; exact hge⟩]
            exact ⟨rfl, hps⟩
  · intro hl
    have hlne : ¬ r.player_leads = true := by rw [hl]; simp
    unfold Round.trick_after_plays at hplays
    rw [if_neg hlne] at hplays
    cases h1 : r.execute_action "computer" la none with
    | none => rw [h1] at hplays; exact absurd hplays (by simp)
    | some t1 =>
      obtain ⟨r1, oc1, m1⟩ := t1
      rw [h1] at hplays
      cases oc1 with
      | none => exact absurd hplays (by simp)
      | some ccard =>
        simp only at hplays
        set r2 := if m1 ≠ 0 then { r1 with computer_score := r1.computer_score + m1 } else r1 with hr2
        cases h2 : r2.execute_action "player" fa (some ccard) with
        | none => rw [h2] at hplays; exact absurd hplays (by simp)
        | some t2 =>
          obtain ⟨rr, oc2, m2⟩ := t2
          rw [h2] at hplays
          cases oc2 with
          | none => exact absurd hplays (by simp)
          | some pcard =>
            simp only [Option.some.injEq, Prod.mk.injEq] at hplays
            obtain ⟨h3, hpc, hcc, hpm, hcm⟩ := hplays
            have hcmv : cm = r.marriage_value s := by
              rw [← hcm]; exact execute_play_marriage_points hm h1
            have hcm0 : cm ≠ 0 := hcmv ▸ marriage_value_ne_zero r s
            have hs1 := execute_scores h1
            have hs2 := execute_scores h2
            have hr2s : r2.computer_score = r.computer_score + cm ∧
                r2.win_score = r.win_score := by
              rw [← hcm] at hcm0 ⊢
              rw [hr2, if_pos hcm0]
              exact ⟨by rw [hs1.2.1], hs1.2.2⟩
            have hcs : r3.computer_score = r.computer_score + cm := by
              rw [← h3, hs2.2.1, hr2s.1]
            have hws : r3.win_score = r.win_score := by
              rw [← h3, hs2.2.2, hr2s.2]
            refine ⟨by rw [hcmv]; rfl, hcs, hws, by rw [hfact0, if_neg hlne], ?_⟩
            intro hge
            rw [← hpm]
            unfold Round.trick_marriage_check
            dsimp only
            rw [if_pos ⟨hcm0, by rw [if_neg (by simp), hcs, hws]; exact hge⟩]
            refine ⟨rfl, ?_⟩
            rw [if_neg (by simp)]
            exact hcs

/-- C4 witness: in `roundMarriage` (player at 46, trump clubs) the player
leads the king of hearts announcing the hearts marriage; after both plays
and the marriage check — before any trick points — the player is already
round winner at exactly 46 + 20 points. -/
theorem c4_marriage_before_trick_witness :
    (roundMarriageAfterPlays.trick_marriage_check 20 0).round_winner = some "player" ∧
    (roundMarriageAfterPlays.trick_marriage_check 20 0).player_score =
      roundMarriage.player_score + 20 := by
  have h := (c4_marriage_before_trick roundMarriage
      (Action.mk ActionType.play_card (some 0) (some Suit.hearts))
      (Action.mk ActionType.play_card (some 0) none) Suit.hearts
      roundMarriageAfterPlays ⟨Rank.king, Suit.hearts⟩ ⟨Rank.jack, Suit.diamonds⟩
      20 0 (by decide) (by decide)).1 (by decide)
  exact h.2.2.2.2 (by decide)

theorem get_valid_cards_sublist (r : Round) (hand : List Card) (lc : Option Card) :
    (hand ≠ [] → r.get_valid_cards hand lc ≠ []) ∧
    ∀ c ∈ r.get_valid_cards hand lc, c ∈ hand := by
  unfold Round.get_valid_cards
  cases lc with
  | none => exact ⟨fun h => h, fun c hc => hc⟩
  | some lcc =>
    dsimp only
    by_cases h1 : r.phase = 1
    · rw [if_pos h1]
      exact ⟨fun h => h, fun c hc => hc⟩
    · rw [if_neg h1]
      by_cases hs : hand.filter (fun c => c.suit == lcc.suit) ≠ []
      · rw [if_pos hs]
        exact ⟨fun _ => hs, fun c hc => List.mem_of_mem_filter hc⟩
      · rw [if_neg hs]
        by_cases htr : hand.filter (fun c => c.suit == r.trump_suit) ≠ []
        · rw [if_pos htr]
          exact ⟨fun _ => htr, fun c hc => List.mem_of_mem_filter hc⟩
        · rw [if_neg htr]
          exact ⟨fun h => h, fun c hc => hc⟩

theorem playActions_play_mem (valid_cards : List Card) (marriages : List Suit) :
    ∀ (hand : List Card) (k : Nat) (c : Card), c ∈ hand →
    valid_cards.contains c = true →
    ∃ a ∈ playActions valid_cards marriages k hand,
      a.type = ActionType.play_card := by
  intro hand
  induction hand with
  | nil => intro k c hc; exact absurd hc (by simp)
  | cons hd tl ih =>
    intro k c hc hv
    rcases List.mem_cons.mp hc with rfl | htl
    · refine ⟨{ type := .play_card, card_index := some k }, ?_, rfl⟩
      unfold playActions
      rw [if_pos hv]
      simp
    · obtain ⟨a, ha, hat⟩ := ih (k + 1) c htl hv
      refine ⟨a, ?_, hat⟩
      unfold playActions
      simp only [List.mem_append]
      exact Or.inr ha

/-- C10: a non-empty hand always has a legal play — the legal-card
computation returns a non-empty subset of the hand for every lead card and
phase, and the legal-action list at a card-play decision point therefore
contains at least one PLAY_CARD action. -/
theorem c10_playable_action_exists (r : Round) (p : String) (lc : Option Card)
    (h : r.hand_of p ≠ []) :
    (r.get_valid_cards (r.hand_of p) lc ≠ [] ∧
     ∀ c ∈ r.get_valid_cards (r.hand_of p) lc, c ∈ r.hand_of p) ∧
    ∃ a ∈ r.get_valid_actions p lc false, a.type = ActionType.play_card := by
  have hsub := get_valid_cards_sublist r (r.hand_of p) lc
  have hne := hsub.1 h
  refine ⟨⟨hne, hsub.2⟩, ?_⟩
  obtain ⟨c, hcv⟩ := List.exists_mem_of_ne_nil _ hne
  have hch : c ∈ r.hand_of p := hsub.2 c hcv
  have hcontains : (r.get_valid_cards (r.hand_of p) lc).contains c = true :=
    List.elem_eq_true_of_mem hcv
  unfold Round.get_valid_actions
  rw [if_neg (by simp)]
  exact playActions_play_mem _ _ (r.hand_of p) 0 c hch hcontains

/-- C10 witness: in the closed round `roundClosed`, responding to the king
of hearts, the player's two-card hand yields a non-empty legal-card list,
and the legal-action list indeed holds the play of hand index 0. -/
theorem c10_playable_action_exists_witness :
    roundClosed.get_valid_cards roundClosed.player_hand
        (some ⟨Rank.king, Suit.hearts⟩) ≠ [] ∧
    (roundClosed.get_valid_actions "player"
        (some ⟨Rank.king, Suit.hearts⟩) false).contains
      (Action.mk ActionType.play_card (some 0) none) = true :=
  ⟨(c10_playable_action_exists roundClosed "player"
      (some ⟨Rank.king, Suit.hearts⟩) (by decide)).1.1,
   by decide⟩

theorem round_step_round_number (m : Match) (o : Option String × Nat) :
    (m.round_step o).round_number = m.round_number + 1 := by
  unfold Match.round_step
  dsimp only
  split
  · rfl
  · split <;> rfl

theorem round_step_side (m : Match) (o : Option String × Nat) :
    (m.round_step o).win_points = m.win_points ∧
    ((m.round_step o).player_game_points = m.player_game_points ∨
     (m.round_step o).computer_game_points = m.computer_game_points) := by
  unfold Match.round_step
  dsimp only
  split
  · exact ⟨rfl, Or.inr rfl⟩
  · split
    · exact ⟨rfl, Or.inl rfl⟩
    · exact ⟨rfl, Or.inl rfl⟩

theorem play_loop_round_number_ge (outcomes : Nat → Option String × Nat) :
    ∀ (n : Nat) (m : Match),
    m.round_number ≤ (Match.play_loop outcomes n m).round_number := by
  intro n
  induction n with
  | zero => intro m; exact Nat.le_refl _
  | succ n ih =>
    intro m
    unfold Match.play_loop
    split
    · have h1 := ih (m.round_step (outcomes m.round_number))
      have h2 := round_step_round_number m (outcomes m.round_number)
      omega
    · exact Nat.le_refl _

theorem play_loop_fix_iff (outcomes : Nat → Option String × Nat) (n : Nat)
    (m : Match) :
    Match.play_loop outcomes (n + 1) m = m ↔
    (m.win_points ≤ m.player_game_points ∨ m.win_points ≤ m.computer_game_points) := by
  constructor
  · intro h
    by_contra hno
    push_neg at hno
    have hg : m.player_game_points < m.win_points ∧
        m.computer_game_points < m.win_points := by omega
    have hstep : Match.play_loop outcomes (n + 1) m =
        Match.play_loop outcomes n (m.round_step (outcomes m.round_number)) := by
      conv_lhs => unfold Match.play_loop
      rw [if_pos hg]
    rw [hstep] at h
    have hge := play_loop_round_number_ge outcomes n
      (m.round_step (outcomes m.round_number))
    rw [round_step_round_number, h] at hge
    omega
  · intro h
    unfold Match.play_loop
    rw [if_neg (by omega)]

theorem play_loop_not_both (outcomes : Nat → Option String × Nat) :
    ∀ (n : Nat) (m : Match),
    (m.player_game_points < m.win_points ∨
     m.computer_game_points < m.win_points) →
    ((Match.play_loop outcomes n m).player_game_points <
       (Match.play_loop outcomes n m).win_points ∨
     (Match.play_loop outcomes n m).computer_game_points <
       (Match.play_loop outcomes n m).win_points) := by
  intro n
  induction n with
  | zero => intro m h; exact h
  | succ n ih =>
    intro m h
    unfold Match.play_loop
    split
    · next hg =>
      apply ih
      obtain ⟨hw, hside⟩ := round_step_side m (outcomes m.round_number)
      rcases hside with hp | hc
      · exact Or.inl (by rw [hp, hw]; exact hg.1)
      · exact Or.inr (by rw [hc, hw]; exact hg.2)
    · exact h

/-- C9: the match loop credits each round's game points to that round's
winner only (no change on a tie), flips who starts the next round every
round regardless of the result, begins at 0-0 with a 7-point target, makes
further progress exactly while both totals are below the target (the loop
state is a fixpoint iff a total has reached it), never lets both sides
reach the target, and names as match winner the side that reached it. -/
theorem c9_match_loop :
    (∀ (m : Match) (o : Option String × Nat),
      (o.1 = some "player" →
        (m.round_step o).player_game_points = m.player_game_points + o.2 ∧
        (m.round_step o).computer_game_points = m.computer_game_points) ∧
      (o.1 = some "computer" →
        (m.round_step o).computer_game_points = m.computer_game_points + o.2 ∧
        (m.round_step o).player_game_points = m.player_game_points) ∧
      (o.1 = none →
        (m.round_step o).player_game_points = m.player_game_points ∧
        (m.round_step o).computer_game_points = m.computer_game_points) ∧
      (m.round_step o).player_starts_next = !m.player_starts_next ∧
      (m.round_step o).win_points = m.win_points) ∧
    (∀ ps : Bool, (Match.init ps).player_game_points = 0 ∧
      (Match.init ps).computer_game_points = 0 ∧
      (Match.init ps).win_points = 7) ∧
    (∀ (outcomes : Nat → Option String × Nat) (n : Nat) (m : Match),
      Match.play_loop outcomes (n + 1) m = m ↔
      (m.win_points ≤ m.player_game_points ∨
       m.win_points ≤ m.computer_game_points)) ∧
    (∀ (outcomes : Nat → Option String × Nat) (n : Nat) (m : Match),
      (m.player_game_points < m.win_points ∨
       m.computer_game_points < m.win_points) →
      ((Match.play_loop outcomes n m).player_game_points <
         (Match.play_loop outcomes n m).win_points ∨
       (Match.play_loop outcomes n m).computer_game_points <
         (Match.play_loop outcomes n m).win_points)) ∧
    (∀ m : Match, m.win_points ≤ m.player_game_points → m.winner = "player") ∧
    (∀ m : Match, m.win_points ≤ m.computer_game_points →
      m.player_game_points < m.win_points → m.winner = "computer") := by
  refine ⟨?_, ?_, play_loop_fix_iff, play_loop_not_both, ?_, ?_⟩
  · intro m o
    refine ⟨?_, ?_, ?_, ?_, ?_⟩
    · intro h
      simp [Match.round_step, h]
    · intro h
      simp [Match.round_step, h]
    · intro h
      simp [Match.round_step, h]
    · unfold Match.round_step
      dsimp only
      split
      · rfl
      · split <;> rfl
    · unfold Match.round_step
      dsimp only
      split
      · rfl
      · split <;> rfl
  · intro ps
    exact ⟨rfl, rfl, rfl⟩
  · intro m h
    unfold Match.winner
    rw [if_pos h]
  · intro m hc hp
    unfold Match.winner
    rw [if_neg (by omega)]

/-- C9 witness: one round crediting 2 points to the player from a fresh
match flips the starter and leaves the computer at 0; the finished state
`matchDone` (player 7, computer 4) is a loop fixpoint and its winner is the
player. -/
theorem c9_match_loop_witness :
    (((Match.init true).round_step (some "player", 2)).player_game_points =
       (Match.init true).player_game_points + 2 ∧
     ((Match.init true).round_step (some "player", 2)).computer_game_points =
       (Match.init true).computer_game_points) ∧
    ((Match.init true).round_step (some "player", 2)).player_starts_next =
      !(Match.init true).player_starts_next ∧
    Match.play_loop (fun _ => (none, 0)) 1 matchDone = matchDone ∧
    matchDone.winner = "player" :=
  ⟨(c9_match_loop.1 (Match.init true) (some "player", 2)).1 rfl,
   (c9_match_loop.1 (Match.init true) (some "player", 2)).2.2.2.1,
   (c9_match_loop.2.2.1 (fun _ => (none, 0)) 0 matchDone).mpr (by decide),
   c9_match_loop.2.2.2.2.1 matchDone (by decide)⟩

end CardGame
